import Mathlib

/-!
Shallow embedding of the transcript reconciliation engine and session
lifecycle state machine of `src/app/static/public/js/voice.js`.

The JavaScript module keeps three pieces of mutable state for the
transcript:

* `segmentElements` — a `Map` from string ids (LiveKit segment ids,
  Grok `item_id`s, and locally generated ids) to entry objects
  `{ element, text }`;
* the DOM container `transcriptContainer`, whose children are the
  transcript message elements in creation order;
* `lastUserSpeechEntry` — an optional reference to the most recently
  created user-role entry, used to re-key it when the agent protocol
  delivers the corrected transcription under its own `item_id`.

Entry objects are shared: `segmentElements` may map several ids to the
same entry object, and mutation through one id is visible through the
other.  The embedding therefore uses an explicit heap of entries keyed
by a numeric reference (`nextRef` is the allocator), a map from string
ids to references, and an optional reference for `lastUserSpeechEntry`.
An entry merges the JS entry object with the observable state of its
DOM element: its role class (`transcript-msg user`/`transcript-msg
assistant`), its bubble text, and whether the bubble carries the
`interim` class.
-/

namespace VoiceApp

/-- Role of a transcript entry, the `user`/`assistant` class of the
`transcript-msg` element. -/
inductive Role where
  | user
  | assistant
deriving DecidableEq, Repr

/-- One transcript entry: the JS `{ element, text }` object combined with
the observable state of its DOM element.  `interim` is true while the
bubble carries the `interim` CSS class. -/
structure Entry where
  role : Role
  text : String
  interim : Bool
deriving DecidableEq, Repr

/-- Association-list lookup, modelling `Map.get` (and used for the entry
heap as well).  Returns the value of the first pair with the given key. -/
def findVal {α β : Type} [DecidableEq α] : List (α × β) → α → Option β
  | [], _ => none
  | p :: rest, key => if p.1 = key then some p.2 else findVal rest key

/-- Association-list insert-or-overwrite, modelling `Map.set`: an
existing binding is overwritten in place, a new binding is appended. -/
def setVal {α β : Type} [DecidableEq α] : List (α × β) → α → β → List (α × β)
  | [], key, v => [(key, v)]
  | p :: rest, key, v => if p.1 = key then (key, v) :: rest else p :: setVal rest key v

/-- In-place update of the value stored under a key, modelling mutation
of a shared entry object: every binding of the key is rewritten, no
binding is added, removed or moved. -/
def updateVal {α β : Type} [DecidableEq α] (l : List (α × β)) (key : α) (f : β → β) :
    List (α × β) :=
  l.map fun p => if p.1 = key then (p.1, f p.2) else p

/-- The transcript state of `voice.js`: the entry heap (the DOM
container's children, in creation order, each paired with the identity
of its entry object), the allocator for entry identities, the
`segmentElements` map, and the `lastUserSpeechEntry` reference. -/
structure TranscriptState where
  entries : List (Nat × Entry)
  nextRef : Nat
  segmentElements : List (String × Nat)
  lastUserSpeechEntry : Option Nat
deriving DecidableEq, Repr

/-- The state at page load: no entries, empty map, no pending user
correction. -/
def initialState : TranscriptState :=
  { entries := [], nextRef := 0, segmentElements := [], lastUserSpeechEntry := none }

/-- `clearTranscript` (voice.js lines 141-146): resets the container's
children, calls `segmentElements.clear()` and nulls
`lastUserSpeechEntry`. -/
def clearTranscript (st : TranscriptState) : TranscriptState :=
  { st with entries := [], segmentElements := [], lastUserSpeechEntry := none }

/-- One LiveKit transcription segment `{id, text, final}` as consumed by
`handleTranscription`.  `text` models `seg.text || ''` and `final`
models the truthiness of `seg.final`. -/
structure Segment where
  id : String
  text : String
  final : Bool
deriving DecidableEq, Repr

/-- The `isLocal` test of `handleTranscription` (voice.js lines 163-164):
`participant && localParticipantIdentity && participant.identity ===
localParticipantIdentity`.  A `none` participant models a missing
participant argument, a `none` local identity models the
`localParticipantIdentity = null` state; an empty-string local identity
is falsy in JS and also yields `false`. -/
def isLocalOf (participant localIdent : Option String) : Bool :=
  match participant, localIdent with
  | some pid, some l => if l = "" then false else pid = l
  | _, _ => false

/-- Big-endian decimal digits of `n`, computed with a structural fuel
argument (any fuel above `n` suffices, see `ofDigitsList_natDigitsAux`). -/
def natDigitsAux : Nat → Nat → List Nat
  | _, 0 => []
  | n, fuel + 1 => if n < 10 then [n] else natDigitsAux (n / 10) fuel ++ [n % 10]

/-- The big-endian decimal digits of a natural number, modelling
JavaScript's number-to-string coercion used in `'user-' + Date.now()`
and friends. -/
def natDigits (n : Nat) : List Nat := natDigitsAux n (n + 1)

/-- The character for one decimal digit. -/
def digitChar (d : Nat) : Char := Char.ofNat (48 + d)

/-- The decimal string for a natural number (JS `String(n)` for an
integer timestamp). -/
def natDecimal (n : Nat) : String := String.mk ((natDigits n).map digitChar)

/-- Body of the `for (const seg of segments)` loop of
`handleTranscription` (voice.js lines 168-208): a known id updates the
entry's text in place and removes the `interim` class when the segment
is final; an unknown id appends a fresh entry, files it under the id,
and — when the batch is classified as local — records it as
`lastUserSpeechEntry`. -/
def processSegment (isLocal : Bool) (st : TranscriptState) (seg : Segment) :
    TranscriptState :=
  match findVal st.segmentElements seg.id with
  | some r =>
      { st with
        entries := updateVal st.entries r fun e =>
          { e with text := seg.text, interim := if seg.final then false else e.interim } }
  | none =>
      { st with
        entries := st.entries ++
          [(st.nextRef,
            { role := if isLocal then Role.user else Role.assistant,
              text := seg.text, interim := !seg.final })],
        nextRef := st.nextRef + 1,
        segmentElements := setVal st.segmentElements seg.id st.nextRef,
        lastUserSpeechEntry :=
          if isLocal then some st.nextRef else st.lastUserSpeechEntry }

/-- `handleTranscription(segments, participant)` (voice.js lines
159-211).  The guard `!segments || !segments.length` drops an empty
batch; otherwise every segment of the batch is processed in order with
the batch-wide `isLocal` classification. -/
def handleTranscription (st : TranscriptState) (segments : List Segment)
    (participant localIdent : Option String) : TranscriptState :=
  if segments.isEmpty then st
  else segments.foldl (processSegment (isLocalOf participant localIdent)) st

/-- `appendTranscriptBubble(id, role, roleLabel, text, interim)`
(voice.js lines 213-233): appends a fresh entry element and files it in
`segmentElements` under `id` (overwriting any previous binding).  The
`roleLabel` argument only feeds the displayed label text. -/
def appendTranscriptBubble (st : TranscriptState) (id : String) (role : Role)
    (roleLabel : String) (text : String) (interim : Bool) : TranscriptState :=
  { st with
    entries := st.entries ++ [(st.nextRef, { role := role, text := text, interim := interim })],
    nextRef := st.nextRef + 1,
    segmentElements := setVal st.segmentElements id st.nextRef }

/-- A successfully parsed data-channel message, the result of
`JSON.parse` on the payload text.  String fields model the
`data.x || fallback` reads: a missing or falsy field is the empty
string. -/
structure ParsedMsg where
  type : String
  item_id : String
  transcript : String
  delta : String
deriving DecidableEq, Repr

/-- `handleDataMessage(text)` (voice.js lines 235-312).  `none` models
an empty payload, a payload that is not valid JSON (the `try` block
catches the `JSON.parse` failure and ignores it), or a parse result
that is falsy; `data.type` being falsy (missing or empty) also returns
early.  The three recognized types are handled as in the source; any
other type falls through the `if` chain and leaves the state
untouched.  `now` is the value `Date.now()` would return for the
fallback ids. -/
def handleDataMessage (st : TranscriptState) (msg : Option ParsedMsg) (now : Nat) :
    TranscriptState :=
  match msg with
  | none => st
  | some data =>
    if data.type = "" then st
    else if data.type = "conversation.item.input_audio_transcription.completed" then
      if data.transcript = "" then st
      else
        let id := if data.item_id = "" then "user-" ++ natDecimal now else data.item_id
        match findVal st.segmentElements id with
        | some r =>
            { st with
              entries := updateVal st.entries r fun e =>
                { e with text := data.transcript, interim := false } }
        | none =>
          match st.lastUserSpeechEntry with
          | some r =>
              { st with
                entries := updateVal st.entries r fun e =>
                  { e with text := data.transcript, interim := false },
                segmentElements := setVal st.segmentElements id r,
                lastUserSpeechEntry := none }
          | none => appendTranscriptBubble st id Role.user "你" data.transcript false
    else if data.type = "response.audio_transcript.delta" then
      if data.delta = "" then st
      else
        let id := if data.item_id = "" then "grok-" ++ natDecimal now else data.item_id
        match findVal st.segmentElements id with
        | some r =>
            { st with
              entries := updateVal st.entries r fun e => { e with text := e.text ++ data.delta } }
        | none => appendTranscriptBubble st id Role.assistant "Grok" data.delta true
    else if data.type = "response.audio_transcript.done" then
      let id := if data.item_id = "" then "grok-" ++ natDecimal now else data.item_id
      match findVal st.segmentElements id with
      | some r =>
          { st with
            entries := updateVal st.entries r fun e =>
              { e with text := if data.transcript = "" then e.text else data.transcript,
                       interim := false } }
      | none =>
          if data.transcript = "" then st
          else appendTranscriptBubble st id Role.assistant "Grok" data.transcript false
    else st

/-- Drop leading whitespace characters from a character list. -/
def dropWhileSpace : List Char → List Char
  | [] => []
  | c :: cs => if c.isWhitespace then dropWhileSpace cs else c :: cs

/-- JavaScript's `String.prototype.trim()`: strip leading and trailing
whitespace. -/
def jsTrim (s : String) : String :=
  String.mk ((dropWhileSpace (dropWhileSpace s.data).reverse).reverse)

/-- A payload published on the LiveKit data channel. -/
structure PublishedData where
  payload : List Nat
  topic : String
deriving DecidableEq, Repr

/-- The bytes of `new TextEncoder().encode(s)`: the UTF-8 encoding of
`s`. -/
def utf8Bytes (s : String) : List Nat := s.toUTF8.toList.map fun b => b.toNat

/-- `sendTextMessage(text)` (voice.js lines 316-339): whitespace-only
input is dropped; without a connected room nothing is published; else a
local user bubble keyed `'text-user-' + Date.now()` is appended and the
trimmed text is published, UTF-8 encoded with no envelope, on topic
`'grok.chat'`.  Returns the new transcript state and the published
payload, if any. -/
def sendTextMessage (st : TranscriptState) (roomConnected : Bool) (text : String)
    (now : Nat) : TranscriptState × Option PublishedData :=
  if jsTrim text = "" then (st, none)
  else if !roomConnected then (st, none)
  else
    let msg := jsTrim text
    let userId := "text-user-" ++ natDecimal now
    (appendTranscriptBubble st userId Role.user "你" msg false,
     some { payload := utf8Bytes msg, topic := "grok.chat" })

/-- A reconciliation event from one of the two sources feeding the
transcript: a LiveKit `TranscriptionReceived` batch (with the
participant and the `localParticipantIdentity` in effect when it
arrives) or a `DataReceived` payload. -/
inductive REvent where
  | transcription (segs : List Segment) (participant localIdent : Option String)
  | data (msg : Option ParsedMsg) (now : Nat)
deriving DecidableEq, Repr

/-- One reconciliation step. -/
def rstep (st : TranscriptState) : REvent → TranscriptState
  | .transcription segs p l => handleTranscription st segs p l
  | .data msg now => handleDataMessage st msg now

/-- A sequence of reconciliation steps. -/
def rsteps (st : TranscriptState) (evs : List REvent) : TranscriptState :=
  evs.foldl rstep st

/-!
Session lifecycle machine, embedded from `startSession` (voice.js lines
382-505), `stopSession` (507-512) and `resetUI` (514-523).  The module
state is the status banner (`setStatus`), the progress of the one
in-flight `startSession` invocation through its `await` points, the
progress of a `stopSession` invocation through its `await
room.disconnect()`, and whether `room` has been assigned (it is never
reset to `null`).  Between two `await` points execution is atomic;
events deliver the results of the pending awaits and the user's
clicks, in any order the environment produces them.
-/

/-- The UI-visible session status set by `setStatus`: `''` (未连接,
disconnected), `connecting`, `connected`, `error`. -/
inductive SessionStatus where
  | disconnected
  | connecting
  | connected
  | error
deriving DecidableEq, Repr

/-- Where the in-flight `startSession` call is suspended: at
`ensurePublicKey()`, at `createLocalTracks(...)`, at the token `fetch`,
or at `room.connect(...)`. -/
inductive StartStep where
  | idle
  | awaitKey
  | awaitMic
  | awaitToken
  | awaitConnect
deriving DecidableEq, Repr

/-- Where the in-flight `stopSession` call is suspended. -/
inductive StopStep where
  | idle
  | awaitDisconnect
deriving DecidableEq, Repr

/-- The session-level module state. -/
structure SessionState where
  status : SessionStatus
  start : StartStep
  stop : StopStep
  roomCreated : Bool
deriving DecidableEq, Repr

/-- State at page load: `setStatus('', '未连接')`, no calls in flight,
`room = null`. -/
def initialSession : SessionState :=
  { status := .disconnected, start := .idle, stop := .idle, roomCreated := false }

/-- Events driving the session machine: the start/stop clicks and the
resolutions of the four awaited asynchronous operations. -/
inductive SessionEvent where
  | startClick
  | keyResolved (ok : Bool)
  | micResolved (ok : Bool)
  | tokenResolved (ok : Bool)
  | connectResolved (ok : Bool)
  | stopClick
  | disconnectResolved
deriving DecidableEq, Repr

/-- One atomic slice of `startSession`/`stopSession` execution.

* `startClick` enters `startSession`, which first awaits
  `ensurePublicKey()`.
* `keyResolved true` runs lines 395-405: `setStatus('connecting', ...)`,
  `clearTranscript()`, then awaits `createLocalTracks`; `keyResolved
  false` redirects to the login page without changing the status.
* `micResolved`/`tokenResolved` advance to the next await; a rejection
  lands in the `catch` block, which runs `setStatus('error', ...)`.
  A successful token fetch also assigns `room = new Room(...)`.
* `connectResolved true` runs the code after `await room.connect`,
  which sets the status to `connected` unconditionally — the source
  keeps no stop-requested flag; `connectResolved false` lands in the
  `catch` block.
* `stopClick` runs `stopSession`: with a room it awaits
  `room.disconnect()`, without one it calls `resetUI()` at once, which
  runs `setStatus('', '未连接')`.
* `disconnectResolved` resumes `stopSession` after the await and calls
  `resetUI()`. -/
def sessionStep (st : SessionState) : SessionEvent → SessionState
  | .startClick => if st.start = .idle then { st with start := .awaitKey } else st
  | .keyResolved ok =>
      if st.start = .awaitKey then
        if ok then { st with status := .connecting, start := .awaitMic }
        else { st with start := .idle }
      else st
  | .micResolved ok =>
      if st.start = .awaitMic then
        if ok then { st with start := .awaitToken }
        else { st with status := .error, start := .idle }
      else st
  | .tokenResolved ok =>
      if st.start = .awaitToken then
        if ok then { st with roomCreated := true, start := .awaitConnect }
        else { st with status := .error, start := .idle }
      else st
  | .connectResolved ok =>
      if st.start = .awaitConnect then
        if ok then { st with status := .connected, start := .idle }
        else { st with status := .error, start := .idle }
      else st
  | .stopClick =>
      if st.roomCreated then { st with stop := .awaitDisconnect }
      else { st with status := .disconnected }
  | .disconnectResolved =>
      if st.stop = .awaitDisconnect then { st with status := .disconnected, stop := .idle }
      else st

/-- Run the session machine from page load over a schedule of events. -/
def sessionRun (evs : List SessionEvent) : SessionState :=
  evs.foldl sessionStep initialSession

/-- A schedule in which the user issues a stop while the start sequence
is suspended at the token fetch (status `connecting`, `room` not yet
assigned), and the start sequence then completes successfully. -/
def stopDuringConnecting : List SessionEvent :=
  [.startClick, .keyResolved true, .micResolved true, .stopClick,
   .tokenResolved true, .connectResolved true]

/-- A reconciliation event carries the key `k` if one of its segment ids,
its `item_id`, or the fallback id it would generate from its timestamp
equals `k`.  `avoidsKey k ev` says it does not. -/
def avoidsKey (k : String) : REvent → Prop
  | .transcription segs _ _ => ∀ s ∈ segs, s.id ≠ k
  | .data none _ => True
  | .data (some d) now => d.item_id ≠ k ∧ "user-" ++ natDecimal now ≠ k ∧
      "grok-" ++ natDecimal now ≠ k

/-- The invariant the C8 non-interference argument maintains about the
entry a typed message creates: exactly the key `k` (and no other key)
resolves to the entry identity `r`, the pending reference does not
point at it, `r` is dominated by the allocator, and the entry's
content is `e`. -/
def keyInv (k : String) (r : Nat) (e : Entry) (st : TranscriptState) : Prop :=
  findVal st.segmentElements k = some r ∧
  (∀ k₂, k₂ ≠ k → findVal st.segmentElements k₂ ≠ some r) ∧
  st.lastUserSpeechEntry ≠ some r ∧
  r < st.nextRef ∧
  findVal st.entries r = some e

/-! ### Association-list lemmas -/

theorem findVal_setVal_self {α β : Type} [DecidableEq α] (m : List (α × β)) (k : α) (v : β) :
    findVal (setVal m k v) k = some v := by
  induction m with
  | nil => simp [setVal, findVal]
  | cons p rest ih =>
    by_cases h : p.1 = k
    · simp [setVal, h, findVal]
    · simp [setVal, h, findVal, ih]

theorem findVal_setVal_ne {α β : Type} [DecidableEq α] (m : List (α × β)) (k k₂ : α) (v : β)
    (h : k₂ ≠ k) : findVal (setVal m k v) k₂ = findVal m k₂ := by
  induction m with
  | nil => simp [setVal, findVal, Ne.symm h]
  | cons p rest ih =>
    by_cases hp : p.1 = k
    · subst hp
      simp [setVal, findVal, Ne.symm h, h]
    · by_cases hp₂ : p.1 = k₂
      · simp [setVal, hp, findVal, hp₂, h]
      · simp [setVal, hp, findVal, hp₂, ih]

theorem findVal_updateVal {α β : Type} [DecidableEq α] (l : List (α × β)) (key : α)
    (f : β → β) (k : α) :
    findVal (updateVal l key f) k =
      if k = key then (findVal l k).map f else findVal l k := by
  induction l with
  | nil => simp [updateVal, findVal]
  | cons p rest ih =>
    by_cases hp : p.1 = k
    · by_cases hk : p.1 = key
      · have h1 : k = key := hp ▸ hk
        simp [updateVal, findVal, hk, hp, h1]
      · have h1 : ¬k = key := fun h => hk (hp.trans h)
        simp [updateVal, findVal, hk, hp, h1]
    · by_cases hk : p.1 = key
      · have h1 : ¬key = k := fun h => hp (hk.trans h)
        simp only [updateVal, List.map_cons]
        simp only [hk, if_true]
        simp only [findVal, hp, if_false, h1]
        simpa [updateVal] using ih
      · simp only [updateVal, List.map_cons]
        simp only [hk, if_false]
        simp only [findVal, hp, if_false]
        simpa [updateVal] using ih

theorem findVal_append_of_some {α β : Type} [DecidableEq α] {l : List (α × β)} {k : α}
    {v : β} (l₂ : List (α × β)) (h : findVal l k = some v) :
    findVal (l ++ l₂) k = some v := by
  induction l with
  | nil => simp [findVal] at h
  | cons p rest ih =>
    by_cases hp : p.1 = k
    · simp_all [findVal]
    · simp_all [findVal]

theorem findVal_append_of_none {α β : Type} [DecidableEq α] {l : List (α × β)} {k : α}
    (l₂ : List (α × β)) (h : findVal l k = none) :
    findVal (l ++ l₂) k = findVal l₂ k := by
  induction l with
  | nil => simp [findVal]
  | cons p rest ih =>
    by_cases hp : p.1 = k
    · simp_all [findVal]
    · simp_all [findVal]

theorem findVal_some_mem {α β : Type} [DecidableEq α] {l : List (α × β)} {k : α} {v : β}
    (h : findVal l k = some v) : (k, v) ∈ l := by
  induction l with
  | nil => simp [findVal] at h
  | cons p rest ih =>
    by_cases hp : p.1 = k
    · simp [findVal, hp] at h
      have hpv : p = (k, v) := by
        cases p
        simp_all
      rw [← hpv]
      exact List.mem_cons_self _ _
    · simp [findVal, hp] at h
      exact List.mem_cons_of_mem _ (ih h)

theorem findVal_none_of_bound {α β : Type} [DecidableEq α] {l : List (α × β)} {k : α}
    (h : ∀ p ∈ l, p.1 ≠ k) : findVal l k = none := by
  induction l with
  | nil => simp [findVal]
  | cons p rest ih =>
    have hp := h p (by simp)
    simp [findVal, hp]
    exact ih fun q hq => h q (List.mem_cons_of_mem _ hq)

theorem setVal_mem {α β : Type} [DecidableEq α] {m : List (α × β)} {k : α} {v : β}
    {p : α × β} (h : p ∈ setVal m k v) : p = (k, v) ∨ p ∈ m := by
  induction m with
  | nil => simp [setVal] at h; simp [h]
  | cons q rest ih =>
    by_cases hq : q.1 = k
    · simp [setVal, hq] at h
      rcases h with h | h
      · exact Or.inl h
      · exact Or.inr (List.mem_cons_of_mem _ h)
    · simp [setVal, hq] at h
      rcases h with h | h
      · exact Or.inr (by simp [h])
      · rcases ih h with h₂ | h₂
        · exact Or.inl h₂
        · exact Or.inr (List.mem_cons_of_mem _ h₂)

theorem updateVal_mem {α β : Type} [DecidableEq α] {l : List (α × β)} {key : α} {f : β → β}
    {p : α × β} (h : p ∈ updateVal l key f) :
    ∃ q ∈ l, p.1 = q.1 ∧ (p.2 = q.2 ∨ p.2 = f q.2) := by
  rcases List.mem_map.mp h with ⟨q, hq, heq⟩
  by_cases hk : q.1 = key
  · refine ⟨q, hq, ?_⟩
    simp [hk] at heq
    subst hk
    rw [← heq]
    simp
  · refine ⟨q, hq, ?_⟩
    simp [hk] at heq
    rw [← heq]
    simp

theorem updateVal_length {α β : Type} [DecidableEq α] (l : List (α × β)) (key : α)
    (f : β → β) : (updateVal l key f).length = l.length := by
  simp [updateVal]

/-! ### Decimal rendering: round-trip and injectivity -/

/-- Recombine a big-endian decimal digit list into the number it
denotes. -/
def ofDigitsList (l : List Nat) : Nat := l.foldl (fun a d => a * 10 + d) 0

theorem ofDigitsList_append_digit (l : List Nat) (d : Nat) :
    ofDigitsList (l ++ [d]) = ofDigitsList l * 10 + d := by
  simp [ofDigitsList, List.foldl_append]

theorem ofDigitsList_natDigitsAux :
    ∀ (fuel n : Nat), n < fuel → ofDigitsList (natDigitsAux n fuel) = n := by
  intro fuel
  induction fuel with
  | zero => intro n h; omega
  | succ f ih =>
    intro n h
    have hstep : natDigitsAux n (f + 1) =
        if n < 10 then [n] else natDigitsAux (n / 10) f ++ [n % 10] := rfl
    rw [hstep]
    by_cases h10 : n < 10
    · simp [h10, ofDigitsList]
    · have hdiv : n / 10 < n := Nat.div_lt_self (by omega) (by omega)
      rw [if_neg h10, ofDigitsList_append_digit, ih (n / 10) (by omega)]
      omega

theorem ofDigitsList_natDigits (n : Nat) : ofDigitsList (natDigits n) = n :=
  ofDigitsList_natDigitsAux (n + 1) n (Nat.lt_succ_self n)

theorem natDigitsAux_lt_ten :
    ∀ (fuel n : Nat), ∀ d ∈ natDigitsAux n fuel, d < 10 := by
  intro fuel
  induction fuel with
  | zero => intro n d hd; simp [natDigitsAux] at hd
  | succ f ih =>
    intro n d hd
    have hstep : natDigitsAux n (f + 1) =
        if n < 10 then [n] else natDigitsAux (n / 10) f ++ [n % 10] := rfl
    rw [hstep] at hd
    by_cases h10 : n < 10
    · rw [if_pos h10] at hd
      simp at hd
      omega
    · rw [if_neg h10] at hd
      rcases List.mem_append.mp hd with hd | hd
      · exact ih (n / 10) d hd
      · simp at hd
        omega

theorem natDigits_lt_ten (n : Nat) : ∀ d ∈ natDigits n, d < 10 :=
  natDigitsAux_lt_ten (n + 1) n

theorem digitChar_inj_fin : ∀ a b : Fin 10, digitChar a.1 = digitChar b.1 → a = b := by
  decide

theorem map_digitChar_inj :
    ∀ l₁ l₂ : List Nat, (∀ d ∈ l₁, d < 10) → (∀ d ∈ l₂, d < 10) →
      l₁.map digitChar = l₂.map digitChar → l₁ = l₂ := by
  intro l₁
  induction l₁ with
  | nil =>
    intro l₂ _ _ h
    cases l₂ with
    | nil => rfl
    | cons b bs => simp at h
  | cons a as ih =>
    intro l₂ h₁ h₂ h
    cases l₂ with
    | nil => simp at h
    | cons b bs =>
      simp only [List.map_cons, List.cons.injEq] at h
      have ha : a < 10 := h₁ a (by simp)
      have hb : b < 10 := h₂ b (by simp)
      have hab : (⟨a, ha⟩ : Fin 10) = ⟨b, hb⟩ := digitChar_inj_fin ⟨a, ha⟩ ⟨b, hb⟩ h.1
      have hab₂ : a = b := congrArg Fin.val hab
      rw [hab₂, ih bs (fun d hd => h₁ d (List.mem_cons_of_mem _ hd))
        (fun d hd => h₂ d (List.mem_cons_of_mem _ hd)) h.2]

theorem natDecimal_inj {n m : Nat} (h : natDecimal n = natDecimal m) : n = m := by
  have hdata : (natDigits n).map digitChar = (natDigits m).map digitChar := by
    have := congrArg String.data h
    simpa [natDecimal] using this
  have hdig : natDigits n = natDigits m :=
    map_digitChar_inj _ _ (natDigits_lt_ten n) (natDigits_lt_ten m) hdata
  rw [← ofDigitsList_natDigits n, ← ofDigitsList_natDigits m, hdig]

theorem string_append_left_cancel {a b c : String} (h : a ++ b = a ++ c) : b = c := by
  apply String.ext
  have := congrArg String.data h
  simp only [String.data_append] at this
  exact List.append_cancel_left this

/-! ### String concatenation helper for delta accumulation -/

/-- `concatAll [f1, ..., fn] = f1 ++ ... ++ fn`. -/
def concatAll (l : List String) : String := l.foldl (fun a b => a ++ b) ""

theorem foldl_append_shift (l : List String) (a : String) :
    l.foldl (fun x y => x ++ y) a = a ++ concatAll l := by
  induction l generalizing a with
  | nil => simp [concatAll, String.append_empty]
  | cons s rest ih =>
    simp only [List.foldl_cons, concatAll]
    rw [ih (a ++ s), ih ("" ++ s), String.empty_append, String.append_assoc]

/-! ### Well-formed transcript states -/

/-- Well-formedness of a transcript state: the allocator dominates every
entry identity, and both the id table and the pending-correction
reference only point at live entries.  Every state reachable from
`initialState` is well-formed. -/
def WFState (st : TranscriptState) : Prop :=
  (∀ p ∈ st.entries, p.1 < st.nextRef) ∧
  (∀ k r, findVal st.segmentElements k = some r → r < st.nextRef) ∧
  (∀ r, st.lastUserSpeechEntry = some r → r < st.nextRef) ∧
  (∀ k r, findVal st.segmentElements k = some r → ∃ e, findVal st.entries r = some e) ∧
  (∀ r, st.lastUserSpeechEntry = some r → ∃ e, findVal st.entries r = some e)

theorem wf_initialState : WFState initialState := by
  refine ⟨?_, ?_, ?_, ?_, ?_⟩ <;> simp [initialState, findVal]

theorem findVal_entries_fresh {st : TranscriptState} (hwf : WFState st) :
    findVal st.entries st.nextRef = none := by
  apply findVal_none_of_bound
  intro p hp
  have := hwf.1 p hp
  omega

theorem wf_afterAppend {st : TranscriptState} (hwf : WFState st) (id : String) (x : Entry)
    (lu : Option Nat) (hl : lu = st.lastUserSpeechEntry ∨ lu = some st.nextRef) :
    WFState
      { entries := st.entries ++ [(st.nextRef, x)], nextRef := st.nextRef + 1,
        segmentElements := setVal st.segmentElements id st.nextRef,
        lastUserSpeechEntry := lu } := by
  obtain ⟨h1, h2, h3, h4, h5⟩ := hwf
  have hfresh : findVal st.entries st.nextRef = none := findVal_entries_fresh ⟨h1, h2, h3, h4, h5⟩
  have hnew : findVal (st.entries ++ [(st.nextRef, x)]) st.nextRef = some x := by
    rw [findVal_append_of_none _ hfresh]
    simp [findVal]
  unfold WFState
  dsimp only
  refine ⟨?_, ?_, ?_, ?_, ?_⟩
  · intro p hp
    rcases List.mem_append.mp hp with hp | hp
    · have := h1 p hp
      omega
    · simp at hp
      subst hp
      simp
  · intro k r hk
    by_cases hkid : k = id
    · subst hkid
      rw [findVal_setVal_self] at hk
      injection hk with hk
      omega
    · rw [findVal_setVal_ne _ _ _ _ hkid] at hk
      have := h2 k r hk
      omega
  · intro r hr
    rcases hl with hl | hl <;> subst hl
    · have := h3 r hr
      omega
    · injection hr with hr
      omega
  · intro k r hk
    by_cases hkid : k = id
    · subst hkid
      rw [findVal_setVal_self] at hk
      injection hk with hk
      subst hk
      exact ⟨x, hnew⟩
    · rw [findVal_setVal_ne _ _ _ _ hkid] at hk
      obtain ⟨e, he⟩ := h4 k r hk
      exact ⟨e, findVal_append_of_some _ he⟩
  · intro r hr
    rcases hl with hl | hl <;> subst hl
    · obtain ⟨e, he⟩ := h5 r hr
      exact ⟨e, findVal_append_of_some _ he⟩
    · injection hr with hr
      subst hr
      exact ⟨x, hnew⟩

theorem wf_afterUpdate {st : TranscriptState} (hwf : WFState st) (r : Nat)
    (f : Entry → Entry) : WFState { st with entries := updateVal st.entries r f } := by
  obtain ⟨h1, h2, h3, h4, h5⟩ := hwf
  have hsome : ∀ r₂ e, findVal st.entries r₂ = some e →
      ∃ e₂, findVal (updateVal st.entries r f) r₂ = some e₂ := by
    intro r₂ e he
    rw [findVal_updateVal]
    by_cases hr : r₂ = r
    · subst hr
      rw [if_pos rfl, he]
      exact ⟨f e, rfl⟩
    · rw [if_neg hr, he]
      exact ⟨e, rfl⟩
  refine ⟨?_, h2, h3, ?_, ?_⟩
  · intro p hp
    obtain ⟨q, hq, hfst, _⟩ := updateVal_mem hp
    rw [hfst]
    exact h1 q hq
  · intro k r₂ hk
    obtain ⟨e, he⟩ := h4 k r₂ hk
    exact hsome r₂ e he
  · intro r₂ hr₂
    obtain ⟨e, he⟩ := h5 r₂ hr₂
    exact hsome r₂ e he

theorem wf_appendTranscriptBubble {st : TranscriptState} (hwf : WFState st) (id : String)
    (role : Role) (lbl text : String) (interim : Bool) :
    WFState (appendTranscriptBubble st id role lbl text interim) :=
  wf_afterAppend hwf id _ _ (Or.inl rfl)

theorem wf_processSegment {st : TranscriptState} (hwf : WFState st) (isLocal : Bool)
    (seg : Segment) : WFState (processSegment isLocal st seg) := by
  unfold processSegment
  cases hfind : findVal st.segmentElements seg.id with
  | some r => exact wf_afterUpdate hwf r _
  | none =>
    by_cases hloc : isLocal
    · simpa [hloc] using wf_afterAppend hwf seg.id _ _ (Or.inr rfl)
    · simpa [hloc] using wf_afterAppend hwf seg.id _ _ (Or.inl rfl)

theorem wf_foldl_processSegment {segs : List Segment} {st : TranscriptState}
    (hwf : WFState st) (isLocal : Bool) :
    WFState (segs.foldl (processSegment isLocal) st) := by
  induction segs generalizing st with
  | nil => exact hwf
  | cons s rest ih => exact ih (wf_processSegment hwf isLocal s)

theorem wf_handleTranscription {st : TranscriptState} (hwf : WFState st)
    (segs : List Segment) (p l : Option String) :
    WFState (handleTranscription st segs p l) := by
  unfold handleTranscription
  split
  · exact hwf
  · exact wf_foldl_processSegment hwf _

theorem wf_clearTranscript {st : TranscriptState} :
    WFState (clearTranscript st) := by
  refine ⟨?_, ?_, ?_, ?_, ?_⟩ <;> simp [clearTranscript, findVal]

theorem wf_handleDataMessage {st : TranscriptState} (hwf : WFState st)
    (msg : Option ParsedMsg) (now : Nat) : WFState (handleDataMessage st msg now) := by
  obtain ⟨h1, h2, h3, h4, h5⟩ := hwf
  unfold handleDataMessage
  cases msg with
  | none => exact ⟨h1, h2, h3, h4, h5⟩
  | some data =>
    by_cases ht : data.type = ""
    · simp only [ht, if_true]
      exact ⟨h1, h2, h3, h4, h5⟩
    · simp only [ht, if_false]
      by_cases hc : data.type = "conversation.item.input_audio_transcription.completed"
      · simp only [hc, if_true]
        by_cases htr : data.transcript = ""
        · simp only [htr, if_true]
          exact ⟨h1, h2, h3, h4, h5⟩
        · simp only [htr, if_false]
          cases hfind : findVal st.segmentElements
              (if data.item_id = "" then "user-" ++ natDecimal now else data.item_id) with
          | some r => exact wf_afterUpdate ⟨h1, h2, h3, h4, h5⟩ r _
          | none =>
            cases hlu : st.lastUserSpeechEntry with
            | some r =>
              obtain ⟨e, he⟩ := h5 r hlu
              have hsome : ∀ r₂ e₂, findVal st.entries r₂ = some e₂ →
                  ∃ e₃, findVal (updateVal st.entries r
                    (fun e => { e with text := data.transcript, interim := false })) r₂ =
                      some e₃ := by
                intro r₂ e₂ he₂
                rw [findVal_updateVal]
                by_cases hr : r₂ = r
                · subst hr
                  rw [if_pos rfl, he₂]
                  exact ⟨_, rfl⟩
                · rw [if_neg hr, he₂]
                  exact ⟨e₂, rfl⟩
              unfold WFState
              dsimp only
              refine ⟨?_, ?_, ?_, ?_, ?_⟩
              · intro p hp
                obtain ⟨q, hq, hfst, _⟩ := updateVal_mem hp
                rw [hfst]
                exact h1 q hq
              · intro k r₂ hk
                by_cases hkid : k = (if data.item_id = "" then "user-" ++ natDecimal now
                    else data.item_id)
                · subst hkid
                  rw [findVal_setVal_self] at hk
                  injection hk with hk
                  subst hk
                  exact h3 r hlu
                · rw [findVal_setVal_ne _ _ _ _ hkid] at hk
                  exact h2 k r₂ hk
              · intro r₂ hr₂
                simp at hr₂
              · intro k r₂ hk
                by_cases hkid : k = (if data.item_id = "" then "user-" ++ natDecimal now
                    else data.item_id)
                · subst hkid
                  rw [findVal_setVal_self] at hk
                  injection hk with hk
                  subst hk
                  exact hsome r e he
                · rw [findVal_setVal_ne _ _ _ _ hkid] at hk
                  obtain ⟨e₂, he₂⟩ := h4 k r₂ hk
                  exact hsome r₂ e₂ he₂
              · intro r₂ hr₂
                simp at hr₂
            | none => exact wf_appendTranscriptBubble ⟨h1, h2, h3, h4, h5⟩ _ _ _ _ _
      · simp only [hc, if_false]
        by_cases hd : data.type = "response.audio_transcript.delta"
        · simp only [hd, if_true]
          by_cases hde : data.delta = ""
          · simp only [hde, if_true]
            exact ⟨h1, h2, h3, h4, h5⟩
          · simp only [hde, if_false]
            cases hfind : findVal st.segmentElements
                (if data.item_id = "" then "grok-" ++ natDecimal now else data.item_id) with
            | some r => exact wf_afterUpdate ⟨h1, h2, h3, h4, h5⟩ r _
            | none => exact wf_appendTranscriptBubble ⟨h1, h2, h3, h4, h5⟩ _ _ _ _ _
        · simp only [hd, if_false]
          by_cases hdo : data.type = "response.audio_transcript.done"
          · simp only [hdo, if_true]
            cases hfind : findVal st.segmentElements
                (if data.item_id = "" then "grok-" ++ natDecimal now else data.item_id) with
            | some r => exact wf_afterUpdate ⟨h1, h2, h3, h4, h5⟩ r _
            | none =>
              by_cases htr : data.transcript = ""
              · simp only [htr, if_true]
                exact ⟨h1, h2, h3, h4, h5⟩
              · simp only [htr, if_false]
                exact wf_appendTranscriptBubble ⟨h1, h2, h3, h4, h5⟩ _ _ _ _ _
          · simp only [hdo, if_false]
            exact ⟨h1, h2, h3, h4, h5⟩

theorem wf_rstep {st : TranscriptState} (hwf : WFState st) (ev : REvent) :
    WFState (rstep st ev) := by
  cases ev with
  | transcription segs p l => exact wf_handleTranscription hwf segs p l
  | data msg now => exact wf_handleDataMessage hwf msg now

theorem wf_rsteps {st : TranscriptState} (hwf : WFState st) (evs : List REvent) :
    WFState (rsteps st evs) := by
  induction evs generalizing st with
  | nil => exact hwf
  | cons ev rest ih => exact ih (wf_rstep hwf ev)

/-! ### Branch equations for the reconciliation operations -/

theorem processSegment_found {st : TranscriptState} {seg : Segment} {r : Nat}
    (isLocal : Bool) (hfind : findVal st.segmentElements seg.id = some r) :
    processSegment isLocal st seg =
      { st with entries := updateVal st.entries r fun e =>
          { e with text := seg.text, interim := if seg.final then false else e.interim } } := by
  unfold processSegment
  rw [hfind]

theorem processSegment_new {st : TranscriptState} {seg : Segment} (isLocal : Bool)
    (hfind : findVal st.segmentElements seg.id = none) :
    processSegment isLocal st seg =
      { st with
        entries := st.entries ++
          [(st.nextRef,
            { role := if isLocal then Role.user else Role.assistant,
              text := seg.text, interim := !seg.final })],
        nextRef := st.nextRef + 1,
        segmentElements := setVal st.segmentElements seg.id st.nextRef,
        lastUserSpeechEntry :=
          if isLocal then some st.nextRef else st.lastUserSpeechEntry } := by
  unfold processSegment
  rw [hfind]

theorem hdm_completed_empty (st : TranscriptState) (item_id d : String) (now : Nat) :
    handleDataMessage st
      (some { type := "conversation.item.input_audio_transcription.completed",
              item_id := item_id, transcript := "", delta := d }) now = st := by
  unfold handleDataMessage
  dsimp only
  rw [if_neg (by decide : ¬("conversation.item.input_audio_transcription.completed" : String) = ""),
    if_pos (rfl : ("conversation.item.input_audio_transcription.completed" : String) =
      "conversation.item.input_audio_transcription.completed"),
    if_pos (rfl : ("" : String) = "")]

theorem hdm_completed_found {st : TranscriptState} {id : String} {r : Nat}
    (tr d : String) (now : Nat) (hid : id ≠ "") (htr : tr ≠ "")
    (hfind : findVal st.segmentElements id = some r) :
    handleDataMessage st
      (some { type := "conversation.item.input_audio_transcription.completed",
              item_id := id, transcript := tr, delta := d }) now =
      { st with entries := updateVal st.entries r fun e =>
          { e with text := tr, interim := false } } := by
  unfold handleDataMessage
  dsimp only
  rw [if_neg (by decide : ¬("conversation.item.input_audio_transcription.completed" : String) = ""),
    if_pos (rfl : ("conversation.item.input_audio_transcription.completed" : String) =
      "conversation.item.input_audio_transcription.completed"),
    if_neg htr, if_neg hid, hfind]

theorem hdm_completed_pending {st : TranscriptState} {id : String} {r : Nat}
    (tr d : String) (now : Nat) (hid : id ≠ "") (htr : tr ≠ "")
    (hfind : findVal st.segmentElements id = none)
    (hlu : st.lastUserSpeechEntry = some r) :
    handleDataMessage st
      (some { type := "conversation.item.input_audio_transcription.completed",
              item_id := id, transcript := tr, delta := d }) now =
      { st with
        entries := updateVal st.entries r fun e =>
          { e with text := tr, interim := false },
        segmentElements := setVal st.segmentElements id r,
        lastUserSpeechEntry := none } := by
  unfold handleDataMessage
  dsimp only
  rw [if_neg (by decide : ¬("conversation.item.input_audio_transcription.completed" : String) = ""),
    if_pos (rfl : ("conversation.item.input_audio_transcription.completed" : String) =
      "conversation.item.input_audio_transcription.completed"),
    if_neg htr, if_neg hid, hfind, hlu]

theorem hdm_completed_fresh {st : TranscriptState} {id : String}
    (tr d : String) (now : Nat) (hid : id ≠ "") (htr : tr ≠ "")
    (hfind : findVal st.segmentElements id = none)
    (hlu : st.lastUserSpeechEntry = none) :
    handleDataMessage st
      (some { type := "conversation.item.input_audio_transcription.completed",
              item_id := id, transcript := tr, delta := d }) now =
      appendTranscriptBubble st id Role.user "你" tr false := by
  unfold handleDataMessage
  dsimp only
  rw [if_neg (by decide : ¬("conversation.item.input_audio_transcription.completed" : String) = ""),
    if_pos (rfl : ("conversation.item.input_audio_transcription.completed" : String) =
      "conversation.item.input_audio_transcription.completed"),
    if_neg htr, if_neg hid, hfind, hlu]

theorem hdm_delta_empty (st : TranscriptState) (item_id tr : String) (now : Nat) :
    handleDataMessage st
      (some { type := "response.audio_transcript.delta",
              item_id := item_id, transcript := tr, delta := "" }) now = st := by
  unfold handleDataMessage
  dsimp only
  rw [if_neg (by decide : ¬("response.audio_transcript.delta" : String) = ""),
    if_neg (by decide : ¬("response.audio_transcript.delta" : String) =
      "conversation.item.input_audio_transcription.completed"),
    if_pos (rfl : ("response.audio_transcript.delta" : String) = "response.audio_transcript.delta"),
    if_pos (rfl : ("" : String) = "")]

theorem hdm_delta_found {st : TranscriptState} {id : String} {r : Nat}
    (tr d : String) (now : Nat) (hid : id ≠ "") (hd : d ≠ "")
    (hfind : findVal st.segmentElements id = some r) :
    handleDataMessage st
      (some { type := "response.audio_transcript.delta",
              item_id := id, transcript := tr, delta := d }) now =
      { st with entries := updateVal st.entries r fun e =>
          { e with text := e.text ++ d } } := by
  unfold handleDataMessage
  dsimp only
  rw [if_neg (by decide : ¬("response.audio_transcript.delta" : String) = ""),
    if_neg (by decide : ¬("response.audio_transcript.delta" : String) =
      "conversation.item.input_audio_transcription.completed"),
    if_pos (rfl : ("response.audio_transcript.delta" : String) = "response.audio_transcript.delta"),
    if_neg hd, if_neg hid, hfind]

theorem hdm_delta_fresh {st : TranscriptState} {id : String}
    (tr d : String) (now : Nat) (hid : id ≠ "") (hd : d ≠ "")
    (hfind : findVal st.segmentElements id = none) :
    handleDataMessage st
      (some { type := "response.audio_transcript.delta",
              item_id := id, transcript := tr, delta := d }) now =
      appendTranscriptBubble st id Role.assistant "Grok" d true := by
  unfold handleDataMessage
  dsimp only
  rw [if_neg (by decide : ¬("response.audio_transcript.delta" : String) = ""),
    if_neg (by decide : ¬("response.audio_transcript.delta" : String) =
      "conversation.item.input_audio_transcription.completed"),
    if_pos (rfl : ("response.audio_transcript.delta" : String) = "response.audio_transcript.delta"),
    if_neg hd, if_neg hid, hfind]

theorem hdm_done_found {st : TranscriptState} {id : String} {r : Nat}
    (tr d : String) (now : Nat) (hid : id ≠ "")
    (hfind : findVal st.segmentElements id = some r) :
    handleDataMessage st
      (some { type := "response.audio_transcript.done",
              item_id := id, transcript := tr, delta := d }) now =
      { st with entries := updateVal st.entries r fun e =>
          { e with text := if tr = "" then e.text else tr, interim := false } } := by
  unfold handleDataMessage
  dsimp only
  rw [if_neg (by decide : ¬("response.audio_transcript.done" : String) = ""),
    if_neg (by decide : ¬("response.audio_transcript.done" : String) =
      "conversation.item.input_audio_transcription.completed"),
    if_neg (by decide : ¬("response.audio_transcript.done" : String) =
      "response.audio_transcript.delta"),
    if_pos (rfl : ("response.audio_transcript.done" : String) = "response.audio_transcript.done"),
    if_neg hid, hfind]

theorem hdm_done_fresh_empty {st : TranscriptState} {id : String}
    (d : String) (now : Nat) (hid : id ≠ "")
    (hfind : findVal st.segmentElements id = none) :
    handleDataMessage st
      (some { type := "response.audio_transcript.done",
              item_id := id, transcript := "", delta := d }) now = st := by
  unfold handleDataMessage
  dsimp only
  rw [if_neg (by decide : ¬("response.audio_transcript.done" : String) = ""),
    if_neg (by decide : ¬("response.audio_transcript.done" : String) =
      "conversation.item.input_audio_transcription.completed"),
    if_neg (by decide : ¬("response.audio_transcript.done" : String) =
      "response.audio_transcript.delta"),
    if_pos (rfl : ("response.audio_transcript.done" : String) = "response.audio_transcript.done"),
    if_neg hid, hfind, if_pos (rfl : ("" : String) = "")]

theorem hdm_done_fresh {st : TranscriptState} {id : String}
    (tr d : String) (now : Nat) (hid : id ≠ "") (htr : tr ≠ "")
    (hfind : findVal st.segmentElements id = none) :
    handleDataMessage st
      (some { type := "response.audio_transcript.done",
              item_id := id, transcript := tr, delta := d }) now =
      appendTranscriptBubble st id Role.assistant "Grok" tr false := by
  unfold handleDataMessage
  dsimp only
  rw [if_neg (by decide : ¬("response.audio_transcript.done" : String) = ""),
    if_neg (by decide : ¬("response.audio_transcript.done" : String) =
      "conversation.item.input_audio_transcription.completed"),
    if_neg (by decide : ¬("response.audio_transcript.done" : String) =
      "response.audio_transcript.delta"),
    if_pos (rfl : ("response.audio_transcript.done" : String) = "response.audio_transcript.done"),
    if_neg hid, hfind, if_neg htr]

theorem concatAll_cons (f : String) (fs : List String) :
    concatAll (f :: fs) = f ++ concatAll fs := by
  simp only [concatAll, List.foldl_cons]
  rw [foldl_append_shift fs ("" ++ f), String.empty_append]
  rfl

theorem delta_step {st : TranscriptState} {id : String} {r : Nat} {e : Entry}
    (tr frag : String) (now : Nat) (hid : id ≠ "")
    (hfind : findVal st.segmentElements id = some r)
    (hent : findVal st.entries r = some e) :
    let st₂ := handleDataMessage st
      (some { type := "response.audio_transcript.delta", item_id := id,
              transcript := tr, delta := frag }) now
    st₂.segmentElements = st.segmentElements ∧
    findVal st₂.entries r = some { e with text := e.text ++ frag } := by
  dsimp only
  by_cases hfrag : frag = ""
  · subst hfrag
    rw [hdm_delta_empty]
    refine ⟨rfl, ?_⟩
    rw [hent, String.append_empty]
  · rw [hdm_delta_found tr frag now hid hfrag hfind]
    refine ⟨rfl, ?_⟩
    dsimp only
    rw [findVal_updateVal, if_pos rfl, hent]
    rfl

theorem delta_fold {id : String} (hid : id ≠ "") (tr : String) (now : Nat) :
    ∀ (fs : List String) (st : TranscriptState) (r : Nat) (e : Entry),
      findVal st.segmentElements id = some r →
      findVal st.entries r = some e →
      findVal ((fs.foldl (fun s frag => handleDataMessage s
          (some { type := "response.audio_transcript.delta", item_id := id,
                  transcript := tr, delta := frag }) now) st)).segmentElements id =
        some r ∧
      findVal ((fs.foldl (fun s frag => handleDataMessage s
          (some { type := "response.audio_transcript.delta", item_id := id,
                  transcript := tr, delta := frag }) now) st)).entries r =
        some { e with text := e.text ++ concatAll fs } := by
  intro fs
  induction fs with
  | nil =>
    intro st r e hfind hent
    simp only [List.foldl_nil]
    refine ⟨hfind, ?_⟩
    rw [hent]
    have h0 : concatAll [] = "" := rfl
    rw [h0, String.append_empty]
  | cons f rest ih =>
    intro st r e hfind hent
    obtain ⟨hmap, hent₂⟩ := delta_step tr f now hid hfind hent
    have hfind₂ : findVal (handleDataMessage st
        (some { type := "response.audio_transcript.delta", item_id := id,
                transcript := tr, delta := f }) now).segmentElements id = some r := by
      rw [hmap]
      exact hfind
    obtain ⟨hm₃, he₃⟩ := ih _ r _ hfind₂ hent₂
    simp only [List.foldl_cons]
    refine ⟨hm₃, ?_⟩
    rw [he₃]
    dsimp only
    rw [concatAll_cons, String.append_assoc]

/-! ### Claim theorems -/

/-- Claim C1: for every state in which a user-role transcript entry was
created from a transport segment with id `T1` and is the current
pending user correction, processing a completed-transcription protocol
message whose `item_id` `P1` is not a known key and whose transcript
`S` is non-empty leaves exactly one entry for that turn (the entry
count is unchanged, and both `T1` and `P1` resolve to the same entry
identity `r`), with text `S` and the interim flag cleared, and clears
the `lastUserSpeechEntry` reference. -/
theorem claim_C1 (st : TranscriptState) (T1 P1 S d : String) (r : Nat) (e : Entry)
    (now : Nat) (hP1 : P1 ≠ "") (hS : S ≠ "")
    (hT : findVal st.segmentElements T1 = some r)
    (hP : findVal st.segmentElements P1 = none)
    (hpend : st.lastUserSpeechEntry = some r)
    (hent : findVal st.entries r = some e) :
    let st₂ := handleDataMessage st
      (some { type := "conversation.item.input_audio_transcription.completed",
              item_id := P1, transcript := S, delta := d }) now
    st₂.entries.length = st.entries.length ∧
    findVal st₂.segmentElements T1 = some r ∧
    findVal st₂.segmentElements P1 = some r ∧
    findVal st₂.entries r = some { e with text := S, interim := false } ∧
    st₂.lastUserSpeechEntry = none := by
  have hTP : T1 ≠ P1 := by
    intro h
    rw [h, hP] at hT
    exact Option.noConfusion hT
  dsimp only
  rw [hdm_completed_pending S d now hP1 hS hP hpend]
  dsimp only
  refine ⟨updateVal_length _ _ _, ?_, findVal_setVal_self _ _ _, ?_, rfl⟩
  · rw [findVal_setVal_ne _ _ _ _ hTP]
    exact hT
  · rw [findVal_updateVal, if_pos rfl, hent]
    rfl

/-- Witness for C1 at a concrete state: one user entry filed under
`"T1"` and pending, then a completed message under `"P1"`. -/
theorem claim_C1_witness :
    let st0 : TranscriptState :=
      { entries := [(0, { role := Role.user, text := "hi", interim := true })],
        nextRef := 1, segmentElements := [("T1", 0)], lastUserSpeechEntry := some 0 }
    let st₂ := handleDataMessage st0
      (some { type := "conversation.item.input_audio_transcription.completed",
              item_id := "P1", transcript := "hello", delta := "" }) 0
    st₂.entries.length = st0.entries.length ∧
    findVal st₂.segmentElements "T1" = some 0 ∧
    findVal st₂.segmentElements "P1" = some 0 ∧
    findVal st₂.entries 0 =
      some { role := Role.user, text := "hello", interim := false } ∧
    st₂.lastUserSpeechEntry = none :=
  claim_C1 _ "T1" "P1" "hello" "" 0 { role := Role.user, text := "hi", interim := true } 0
    (by decide) (by decide) (by decide) (by decide) (by decide) (by decide)

/-- Claim C4: the source keeps no stop-requested flag, so a stop issued
while the session is `connecting` does not prevent a later successful
connect from setting the status to `connected`.  In the schedule
`stopDuringConnecting` the stop is issued while the status is
`connecting` (and is immediately resolved to `disconnected`, since
`room` is not yet assigned), yet the run ends with status `connected`
— contradicting the claim that the final state is `disconnected` and
never `connected`. -/
theorem claim_C4 :
    (sessionRun [.startClick, .keyResolved true, .micResolved true]).status =
      SessionStatus.connecting ∧
    (sessionRun [.startClick, .keyResolved true, .micResolved true, .stopClick]).status =
      SessionStatus.disconnected ∧
    (sessionRun stopDuringConnecting).status = SessionStatus.connected := by
  decide

/-- Claim C5: an inbound data-channel payload that is not valid JSON,
lacks a `type` field, or carries an unrecognized `type` leaves the
transcript state (entries, id tables and pending-correction reference)
completely unchanged; in the source the `try` block swallows the parse
failure, so no error is observable. -/
theorem claim_C5 (st : TranscriptState) (msg : Option ParsedMsg) (now : Nat)
    (h : msg = none ∨ ∃ d, msg = some d ∧ (d.type = "" ∨
      (d.type ≠ "conversation.item.input_audio_transcription.completed" ∧
       d.type ≠ "response.audio_transcript.delta" ∧
       d.type ≠ "response.audio_transcript.done"))) :
    handleDataMessage st msg now = st := by
  rcases h with h | ⟨d, hm, hd⟩
  · subst h
    rfl
  · subst hm
    unfold handleDataMessage
    dsimp only
    rcases hd with hd | ⟨h1, h2, h3⟩
    · rw [if_pos hd]
    · by_cases h0 : d.type = ""
      · rw [if_pos h0]
      · rw [if_neg h0, if_neg h1, if_neg h2, if_neg h3]

/-- Witness for C5: an unrecognized type on a non-trivial state. -/
theorem claim_C5_witness :
    handleDataMessage
      { entries := [(0, { role := Role.user, text := "hi", interim := true })],
        nextRef := 1, segmentElements := [("T1", 0)], lastUserSpeechEntry := some 0 }
      (some { type := "session.created", item_id := "x", transcript := "t", delta := "d" })
      7 =
      { entries := [(0, { role := Role.user, text := "hi", interim := true })],
        nextRef := 1, segmentElements := [("T1", 0)], lastUserSpeechEntry := some 0 } :=
  claim_C5 _ _ 7
    (Or.inr ⟨_, rfl, Or.inr ⟨by decide, by decide, by decide⟩⟩)

/-- Claim C6: the clear-transcript operation discards all entries, the
whole id table (which holds both the transport-id and the protocol-id
mappings) and the pending user correction in one step; it is
idempotent and safe on the empty transcript; and replaying a
previously-seen segment id afterwards creates a brand-new entry with a
fresh identity and no residue from before the clear. -/
theorem claim_C6 (st : TranscriptState) (id : String) (r : Nat) (s : Segment)
    (p l : Option String)
    (hseen : findVal st.segmentElements id = some r) (hid : s.id = id) :
    (clearTranscript st).entries = [] ∧
    (clearTranscript st).segmentElements = [] ∧
    (clearTranscript st).lastUserSpeechEntry = none ∧
    clearTranscript (clearTranscript st) = clearTranscript st ∧
    clearTranscript initialState = initialState ∧
    (let st₂ := handleTranscription (clearTranscript st) [s] p l
     findVal st₂.segmentElements id = some st.nextRef ∧
     st₂.entries = [(st.nextRef,
       { role := if isLocalOf p l then Role.user else Role.assistant,
         text := s.text, interim := !s.final })] ∧
     st₂.lastUserSpeechEntry =
       (if isLocalOf p l then some st.nextRef else none)) := by
  subst hid
  refine ⟨rfl, rfl, rfl, rfl, rfl, ?_⟩
  have hstep : handleTranscription (clearTranscript st) [s] p l =
      processSegment (isLocalOf p l) (clearTranscript st) s := rfl
  dsimp only
  rw [hstep, processSegment_new _ (rfl : findVal (clearTranscript st).segmentElements s.id = none)]
  refine ⟨?_, rfl, rfl⟩
  simp [clearTranscript, setVal, findVal]

/-- Witness for C6 at a concrete state with a previously-seen id. -/
theorem claim_C6_witness :
    let st0 : TranscriptState :=
      { entries := [(0, { role := Role.assistant, text := "old", interim := false })],
        nextRef := 1, segmentElements := [("s1", 0)], lastUserSpeechEntry := none }
    let s : Segment := { id := "s1", text := "fresh", final := false }
    (clearTranscript st0).entries = [] ∧
    (clearTranscript st0).segmentElements = [] ∧
    (clearTranscript st0).lastUserSpeechEntry = none ∧
    clearTranscript (clearTranscript st0) = clearTranscript st0 ∧
    clearTranscript initialState = initialState ∧
    (let st₂ := handleTranscription (clearTranscript st0) [s] none none
     findVal st₂.segmentElements "s1" = some st0.nextRef ∧
     st₂.entries = [(st0.nextRef,
       { role := if isLocalOf none none then Role.user else Role.assistant,
         text := s.text, interim := !s.final })] ∧
     st₂.lastUserSpeechEntry =
       (if isLocalOf none none then some st0.nextRef else none)) :=
  claim_C6 _ "s1" 0 { id := "s1", text := "fresh", final := false } none none
    (by decide) rfl

/-- Claim C7 as amended: a typed message with non-whitespace content sent
while connected publishes exactly the UTF-8 bytes of the trimmed text,
with no envelope, on topic `"grok.chat"` (the source topic; the claim
said `"chat"`). -/
theorem claim_C7 (st : TranscriptState) (text : String) (now : Nat)
    (h : jsTrim text ≠ "") :
    (sendTextMessage st true text now).2 =
      some { payload := utf8Bytes (jsTrim text), topic := "grok.chat" } := by
  unfold sendTextMessage
  rw [if_neg h]
  rfl

/-- Witness for C7. -/
theorem claim_C7_witness :
    (sendTextMessage initialState true " hi " 3).2 =
      some { payload := utf8Bytes (jsTrim " hi "), topic := "grok.chat" } :=
  claim_C7 initialState " hi " 3 (by decide)

/-- Counterexample to C7 as stated: the topic the source publishes on is
`"grok.chat"`, not `"chat"`. -/
theorem claim_C7_counterexample :
    (sendTextMessage initialState true "hi" 0).2.map PublishedData.topic =
      some "grok.chat" ∧ ("grok.chat" : String) ≠ "chat" := by
  exact ⟨rfl, by decide⟩

/-- Claim C9: a completed-transcription message with an empty (or
missing) transcript is dropped entirely — the state is unchanged, so a
known `item_id` is not updated or finalized and the pending reference
is not consumed — whereas a done event with empty transcript still
marks an existing entry final (text untouched). -/
theorem claim_C9 :
    (∀ (st : TranscriptState) (item_id d : String) (now : Nat),
      handleDataMessage st
        (some { type := "conversation.item.input_audio_transcription.completed",
                item_id := item_id, transcript := "", delta := d }) now = st) ∧
    (∀ (st : TranscriptState) (id : String) (r : Nat) (e : Entry) (now : Nat),
      id ≠ "" → findVal st.segmentElements id = some r →
      findVal st.entries r = some e →
      findVal (handleDataMessage st
        (some { type := "response.audio_transcript.done",
                item_id := id, transcript := "", delta := "" }) now).entries r =
        some { e with interim := false }) := by
  refine ⟨fun st item_id d now => hdm_completed_empty st item_id d now, ?_⟩
  intro st id r e now hid hfind hent
  rw [hdm_done_found "" "" now hid hfind]
  dsimp only
  rw [findVal_updateVal, if_pos rfl, hent]
  rfl

/-- Witness for C9: an empty completed message leaves a state with a
known `item_id` and a pending reference unchanged, and an empty done
message finalizes an existing entry. -/
theorem claim_C9_witness :
    (handleDataMessage
      { entries := [(0, { role := Role.user, text := "hi", interim := true })],
        nextRef := 1, segmentElements := [("p1", 0)], lastUserSpeechEntry := some 0 }
      (some { type := "conversation.item.input_audio_transcription.completed",
              item_id := "p1", transcript := "", delta := "" }) 4 =
      { entries := [(0, { role := Role.user, text := "hi", interim := true })],
        nextRef := 1, segmentElements := [("p1", 0)], lastUserSpeechEntry := some 0 }) ∧
    (findVal (handleDataMessage
      { entries := [(0, { role := Role.assistant, text := "acc", interim := true })],
        nextRef := 1, segmentElements := [("g1", 0)], lastUserSpeechEntry := none }
      (some { type := "response.audio_transcript.done",
              item_id := "g1", transcript := "", delta := "" }) 4).entries 0 =
      some { role := Role.assistant, text := "acc", interim := false }) :=
  ⟨claim_C9.1 _ "p1" "" 4,
   claim_C9.2 _ "g1" 0 { role := Role.assistant, text := "acc", interim := true } 4
     (by decide) (by decide) (by decide)⟩

/-- Claim C2: delta events for one `item_id` accumulate — the first
fragment creates an interim assistant entry, later fragments are
appended (never replacing) — and the entry stays interim; a done event
with non-empty transcript `S` then replaces the accumulated text with
`S` and marks the entry final; a done event with empty transcript
leaves the accumulated text untouched but still marks the entry final;
and a done event with empty transcript for an unknown `item_id`
changes nothing. -/
theorem claim_C2 (st : TranscriptState) (id f : String) (fs : List String) (S : String)
    (now : Nat) (hwf : WFState st) (hid : id ≠ "") (hf : f ≠ "") (hS : S ≠ "")
    (hnew : findVal st.segmentElements id = none) :
    let st₁ := (f :: fs).foldl (fun s frag => handleDataMessage s
      (some { type := "response.audio_transcript.delta", item_id := id,
              transcript := "", delta := frag }) now) st
    (findVal st₁.segmentElements id = some st.nextRef ∧
     findVal st₁.entries st.nextRef =
       some { role := Role.assistant, text := concatAll (f :: fs), interim := true }) ∧
    (findVal (handleDataMessage st₁
        (some { type := "response.audio_transcript.done", item_id := id,
                transcript := S, delta := "" }) now).entries st.nextRef =
      some { role := Role.assistant, text := S, interim := false }) ∧
    (findVal (handleDataMessage st₁
        (some { type := "response.audio_transcript.done", item_id := id,
                transcript := "", delta := "" }) now).entries st.nextRef =
      some { role := Role.assistant, text := concatAll (f :: fs), interim := false }) ∧
    handleDataMessage st
      (some { type := "response.audio_transcript.done", item_id := id,
              transcript := "", delta := "" }) now = st := by
  have hstep₁ := hdm_delta_fresh "" f now hid hf hnew
  have hmap₁ : findVal (appendTranscriptBubble st id Role.assistant "Grok" f
      true).segmentElements id = some st.nextRef := findVal_setVal_self _ _ _
  have hent₁ : findVal (appendTranscriptBubble st id Role.assistant "Grok" f
      true).entries st.nextRef =
      some { role := Role.assistant, text := f, interim := true } := by
    dsimp only [appendTranscriptBubble]
    rw [findVal_append_of_none _ (findVal_entries_fresh hwf)]
    simp [findVal]
  have hfold := delta_fold hid "" now fs _ st.nextRef _ (hstep₁ ▸ hmap₁) (hstep₁ ▸ hent₁)
  simp only [List.foldl_cons]
  obtain ⟨hm, he⟩ := hfold
  have hacc : ({ role := Role.assistant, text := f, interim := true } : Entry).text ++
      concatAll fs = concatAll (f :: fs) := by
    rw [concatAll_cons]
  refine ⟨⟨hm, by rw [he]; dsimp only; rw [concatAll_cons]⟩, ?_, ?_, ?_⟩
  · rw [hdm_done_found S "" now hid hm]
    dsimp only
    rw [findVal_updateVal, if_pos rfl, he]
    dsimp only [Option.map]
    rw [if_neg hS]
  · rw [hdm_done_found "" "" now hid hm]
    dsimp only
    rw [findVal_updateVal, if_pos rfl, he]
    dsimp only [Option.map]
    rw [if_pos (rfl : ("" : String) = ""), concatAll_cons]
  · exact hdm_done_fresh_empty "" now hid hnew

/-- Witness for C2: fragments `"Hel"`, `"lo"` then a done with
`"Hello!"`. -/
theorem claim_C2_witness :
    let st₁ := (["Hel", "lo"] : List String).foldl (fun s frag => handleDataMessage s
      (some { type := "response.audio_transcript.delta", item_id := "g1",
              transcript := "", delta := frag }) 0) initialState
    (findVal st₁.segmentElements "g1" = some initialState.nextRef ∧
     findVal st₁.entries initialState.nextRef =
       some { role := Role.assistant, text := concatAll ["Hel", "lo"], interim := true }) ∧
    (findVal (handleDataMessage st₁
        (some { type := "response.audio_transcript.done", item_id := "g1",
                transcript := "Hello!", delta := "" }) 0).entries initialState.nextRef =
      some { role := Role.assistant, text := "Hello!", interim := false }) ∧
    (findVal (handleDataMessage st₁
        (some { type := "response.audio_transcript.done", item_id := "g1",
                transcript := "", delta := "" }) 0).entries initialState.nextRef =
      some { role := Role.assistant, text := concatAll ["Hel", "lo"],
             interim := false }) ∧
    handleDataMessage initialState
      (some { type := "response.audio_transcript.done", item_id := "g1",
              transcript := "", delta := "" }) 0 = initialState :=
  claim_C2 initialState "g1" "Hel" ["lo"] "Hello!" 0 wf_initialState
    (by decide) (by decide) (by decide) (by decide)

/-- Claim C10: a transcription batch processed while
`localParticipantIdentity` is null is classified as assistant — every
entry such a batch creates carries the assistant role (pre-existing
entries keep their role) — and the batch never sets the
`lastUserSpeechEntry` reference, whoever the originating participant
is. -/
theorem claim_C10 (st : TranscriptState) (segs : List Segment)
    (participant : Option String) :
    (handleTranscription st segs participant none).lastUserSpeechEntry =
      st.lastUserSpeechEntry ∧
    ∀ p ∈ (handleTranscription st segs participant none).entries,
      (∃ e₀, (p.1, e₀) ∈ st.entries ∧ p.2.role = e₀.role) ∨
        p.2.role = Role.assistant := by
  have hloc : isLocalOf participant none = false := by
    cases participant <;> rfl
  have hstep : ∀ (st₂ : TranscriptState) (s : Segment),
      (processSegment false st₂ s).lastUserSpeechEntry = st₂.lastUserSpeechEntry ∧
      ∀ p ∈ (processSegment false st₂ s).entries,
        (∃ e₀, (p.1, e₀) ∈ st₂.entries ∧ p.2.role = e₀.role) ∨
          p.2.role = Role.assistant := by
    intro st₂ s
    unfold processSegment
    cases hfind : findVal st₂.segmentElements s.id with
    | some r =>
      dsimp only
      refine ⟨rfl, ?_⟩
      intro p hp
      obtain ⟨q, hq, hfst, hsnd⟩ := updateVal_mem hp
      left
      refine ⟨q.2, ?_, ?_⟩
      · rw [hfst]
        exact hq
      · rcases hsnd with h | h <;> rw [h]
    | none =>
      dsimp only
      refine ⟨rfl, ?_⟩
      intro p hp
      rcases List.mem_append.mp hp with hp | hp
      · left
        exact ⟨p.2, hp, rfl⟩
      · right
        simp at hp
        subst hp
        rfl
  have hfold : ∀ (l : List Segment) (st₂ : TranscriptState),
      (l.foldl (processSegment false) st₂).lastUserSpeechEntry =
        st₂.lastUserSpeechEntry ∧
      ∀ p ∈ (l.foldl (processSegment false) st₂).entries,
        (∃ e₀, (p.1, e₀) ∈ st₂.entries ∧ p.2.role = e₀.role) ∨
          p.2.role = Role.assistant := by
    intro l
    induction l with
    | nil => exact fun st₂ => ⟨rfl, fun p hp => Or.inl ⟨p.2, hp, rfl⟩⟩
    | cons s rest ih =>
      intro st₂
      obtain ⟨hl₁, hr₁⟩ := hstep st₂ s
      obtain ⟨hl₂, hr₂⟩ := ih (processSegment false st₂ s)
      simp only [List.foldl_cons]
      refine ⟨by rw [hl₂, hl₁], ?_⟩
      intro p hp
      rcases hr₂ p hp with ⟨e₀, he₀, hrole⟩ | h
      · rcases hr₁ (p.1, e₀) he₀ with ⟨e₁, he₁, hrole₂⟩ | h₂
        · exact Or.inl ⟨e₁, he₁, by rw [hrole]; exact hrole₂⟩
        · exact Or.inr (by rw [hrole]; exact h₂)
      · exact Or.inr h
  unfold handleTranscription
  rw [hloc]
  split
  · exact ⟨rfl, fun p hp => Or.inl ⟨p.2, hp, rfl⟩⟩
  · exact hfold segs st

/-- Witness for C10: a segment from the local participant while the
local identity is unrecorded creates an assistant entry and leaves the
pending reference unset. -/
theorem claim_C10_witness :
    (handleTranscription initialState [{ id := "s1", text := "t", final := false }]
        (some "me") none).lastUserSpeechEntry = initialState.lastUserSpeechEntry ∧
    ((∃ e₀, ((0 : Nat), e₀) ∈ initialState.entries ∧
        ({ role := Role.assistant, text := "t", interim := true } : Entry).role =
          e₀.role) ∨
      ({ role := Role.assistant, text := "t", interim := true } : Entry).role =
        Role.assistant) :=
  ⟨(claim_C10 initialState [{ id := "s1", text := "t", final := false }] (some "me")).1,
   (claim_C10 initialState [{ id := "s1", text := "t", final := false }] (some "me")).2
     (0, { role := Role.assistant, text := "t", interim := true }) (by decide)⟩

theorem interim_mono_processSegment {st : TranscriptState} {r : Nat} {e : Entry}
    (isLocal : Bool) (seg : Segment)
    (hent : findVal st.entries r = some e) (hint : e.interim = false) :
    ∃ e₂, findVal (processSegment isLocal st seg).entries r = some e₂ ∧
      e₂.interim = false := by
  unfold processSegment
  cases hfind : findVal st.segmentElements seg.id with
  | some r₂ =>
    dsimp only
    rw [findVal_updateVal]
    by_cases hr : r = r₂
    · rw [if_pos hr, hent]
      refine ⟨_, rfl, ?_⟩
      dsimp only
      rw [hint]
      cases seg.final <;> rfl
    · rw [if_neg hr]
      exact ⟨e, hent, hint⟩
  | none =>
    dsimp only
    exact ⟨e, findVal_append_of_some _ hent, hint⟩

theorem interim_mono_data {st : TranscriptState} {r : Nat} {e : Entry}
    (msg : Option ParsedMsg) (now : Nat)
    (hent : findVal st.entries r = some e) (hint : e.interim = false) :
    ∃ e₂, findVal (handleDataMessage st msg now).entries r = some e₂ ∧
      e₂.interim = false := by
  have hupd : ∀ (r₂ : Nat) (f : Entry → Entry),
      (∀ x, (f x).interim = x.interim ∨ (f x).interim = false) →
      ∃ e₂, findVal (updateVal st.entries r₂ f) r = some e₂ ∧ e₂.interim = false := by
    intro r₂ f hf
    rw [findVal_updateVal]
    by_cases hr : r = r₂
    · rw [if_pos hr, hent]
      refine ⟨f e, rfl, ?_⟩
      rcases hf e with h | h
      · rw [h, hint]
      · exact h
    · rw [if_neg hr]
      exact ⟨e, hent, hint⟩
  have happ : ∀ (id : String) (role : Role) (lbl text : String) (b : Bool),
      ∃ e₂, findVal (appendTranscriptBubble st id role lbl text b).entries r =
        some e₂ ∧ e₂.interim = false := by
    intro id role lbl text b
    exact ⟨e, findVal_append_of_some _ hent, hint⟩
  unfold handleDataMessage
  cases msg with
  | none => exact ⟨e, hent, hint⟩
  | some data =>
    dsimp only
    repeat' split
    all_goals try dsimp only
    all_goals first
      | exact ⟨e, hent, hint⟩
      | (refine hupd _ _ ?_
         intro x
         first
           | exact Or.inr rfl
           | exact Or.inl rfl)
      | exact happ _ _ _ _ _

theorem interim_mono_fold (isLocal : Bool) :
    ∀ (segs : List Segment) (st : TranscriptState) (r : Nat) (e : Entry),
      findVal st.entries r = some e → e.interim = false →
      ∃ e₂, findVal (segs.foldl (processSegment isLocal) st).entries r = some e₂ ∧
        e₂.interim = false := by
  intro segs
  induction segs with
  | nil => exact fun st r e h h₂ => ⟨e, h, h₂⟩
  | cons s rest ih =>
    intro st r e hent hint
    obtain ⟨e₁, he₁, hi₁⟩ := interim_mono_processSegment isLocal s hent hint
    simp only [List.foldl_cons]
    exact ih _ r e₁ he₁ hi₁

theorem interim_mono_rstep {st : TranscriptState} {r : Nat} {e : Entry} (ev : REvent)
    (hent : findVal st.entries r = some e) (hint : e.interim = false) :
    ∃ e₂, findVal (rstep st ev).entries r = some e₂ ∧ e₂.interim = false := by
  cases ev with
  | data msg now => exact interim_mono_data msg now hent hint
  | transcription segs p l =>
    show ∃ e₂, findVal (handleTranscription st segs p l).entries r = some e₂ ∧
      e₂.interim = false
    unfold handleTranscription
    split
    · exact ⟨e, hent, hint⟩
    · exact interim_mono_fold _ segs st r e hent hint

theorem interim_mono_rsteps {r : Nat} :
    ∀ (evs : List REvent) (st : TranscriptState) (e : Entry),
      findVal st.entries r = some e → e.interim = false →
      ∃ e₂, findVal (rsteps st evs).entries r = some e₂ ∧ e₂.interim = false := by
  intro evs
  induction evs with
  | nil => exact fun st e h h₂ => ⟨e, h, h₂⟩
  | cons ev rest ih =>
    intro st e hent hint
    obtain ⟨e₁, he₁, hi₁⟩ := interim_mono_rstep ev hent hint
    simp only [rsteps, List.foldl_cons]
    exact ih _ e₁ he₁ hi₁

theorem c3_fold (i : String) (isLocal : Bool) :
    ∀ (segs : List Segment) (st : TranscriptState) (r : Nat) (e : Entry),
      (∀ s ∈ segs, s.id = i) →
      findVal st.segmentElements i = some r →
      findVal st.entries r = some e →
      ∃ e₂,
        findVal (segs.foldl (processSegment isLocal) st).segmentElements i = some r ∧
        findVal (segs.foldl (processSegment isLocal) st).entries r = some e₂ ∧
        (e.interim = false → e₂.interim = false) ∧
        ((∃ s ∈ segs, s.final = true) → e₂.interim = false) := by
  intro segs
  induction segs with
  | nil =>
    intro st r e _ hmap hent
    exact ⟨e, hmap, hent, fun h => h, fun h => by simp at h⟩
  | cons s rest ih =>
    intro st r e hids hmap hent
    have hs : s.id = i := hids s (by simp)
    have hfound : findVal st.segmentElements s.id = some r := by rw [hs]; exact hmap
    rw [List.foldl_cons, processSegment_found isLocal hfound]
    have hent₂ : findVal (updateVal st.entries r fun e =>
        { e with text := s.text,
                 interim := if s.final then false else e.interim }) r =
        some { e with text := s.text,
                      interim := if s.final then false else e.interim } := by
      rw [findVal_updateVal, if_pos rfl, hent]
      rfl
    obtain ⟨e₂, hm₂, he₂, himp, hfin⟩ :=
      ih { st with entries := updateVal st.entries r fun e =>
            { e with text := s.text,
                     interim := if s.final then false else e.interim } }
        r _ (fun s₂ hs₂ => hids s₂ (List.mem_cons_of_mem _ hs₂)) hmap hent₂
    refine ⟨e₂, hm₂, he₂, ?_, ?_⟩
    · intro h
      apply himp
      dsimp only
      rw [h]
      cases s.final <;> rfl
    · intro h
      rcases h with ⟨s₂, hs₂, hsf⟩
      rcases List.mem_cons.mp hs₂ with h₂ | h₂
      · apply himp
        dsimp only
        rw [h₂] at hsf
        simp [hsf]
      · exact hfin ⟨s₂, h₂, hsf⟩

/-- Claim C3: for a transcript batch of Source-A segments sharing one
id, the resulting entry's interim flag is false once any segment in
the batch carried `final = true`; and the flag is monotonic — once an
entry's interim flag is false, no later event from either source (any
sequence of reconciliation steps) ever turns it back to true. -/
theorem claim_C3 :
    (∀ (st : TranscriptState) (segs : List Segment) (i : String) (p l : Option String),
      WFState st → segs ≠ [] → (∀ s ∈ segs, s.id = i) →
      (∃ s ∈ segs, s.final = true) →
      ∃ r e₂,
        findVal (handleTranscription st segs p l).segmentElements i = some r ∧
        findVal (handleTranscription st segs p l).entries r = some e₂ ∧
        e₂.interim = false) ∧
    (∀ (st : TranscriptState) (r : Nat) (e : Entry) (evs : List REvent) (e₂ : Entry),
      findVal st.entries r = some e → e.interim = false →
      findVal (rsteps st evs).entries r = some e₂ → e₂.interim = false) := by
  constructor
  · intro st segs i p l hwf hne hids hfin
    cases segs with
    | nil => exact absurd rfl hne
    | cons s₀ rest =>
      have hs₀ : s₀.id = i := hids s₀ (by simp)
      unfold handleTranscription
      rw [if_neg (by simp : ¬((s₀ :: rest).isEmpty = true))]
      rw [List.foldl_cons]
      cases hfind : findVal st.segmentElements s₀.id with
      | some r =>
        obtain ⟨e, hent⟩ := hwf.2.2.2.1 i r (hs₀ ▸ hfind)
        rw [processSegment_found (isLocalOf p l) hfind]
        have hent₂ : findVal (updateVal st.entries r fun e =>
            { e with text := s₀.text,
                     interim := if s₀.final then false else e.interim }) r =
            some { e with text := s₀.text,
                          interim := if s₀.final then false else e.interim } := by
          rw [findVal_updateVal, if_pos rfl, hent]
          rfl
        obtain ⟨e₂, hm₂, he₂, himp, hfin₂⟩ := c3_fold i (isLocalOf p l) rest
          { st with entries := updateVal st.entries r fun e =>
              { e with text := s₀.text,
                       interim := if s₀.final then false else e.interim } }
          r _ (fun s₂ hs₂ => hids s₂ (List.mem_cons_of_mem _ hs₂)) (hs₀ ▸ hfind) hent₂
        refine ⟨r, e₂, hm₂, he₂, ?_⟩
        rcases hfin with ⟨s₂, hs₂, hsf⟩
        rcases List.mem_cons.mp hs₂ with h₂ | h₂
        · apply himp
          dsimp only
          rw [h₂] at hsf
          simp [hsf]
        · exact hfin₂ ⟨s₂, h₂, hsf⟩
      | none =>
        rw [processSegment_new (isLocalOf p l) hfind]
        have hmap₂ : findVal (setVal st.segmentElements s₀.id st.nextRef) i =
            some st.nextRef := by
          rw [hs₀] at hfind ⊢
          exact findVal_setVal_self _ _ _
        have hent₂ : findVal (st.entries ++
            [(st.nextRef,
              { role := if isLocalOf p l then Role.user else Role.assistant,
                text := s₀.text, interim := !s₀.final })]) st.nextRef =
            some { role := if isLocalOf p l then Role.user else Role.assistant,
                   text := s₀.text, interim := !s₀.final } := by
          rw [findVal_append_of_none _ (findVal_entries_fresh hwf)]
          simp [findVal]
        obtain ⟨e₂, hm₂, he₂, himp, hfin₂⟩ := c3_fold i (isLocalOf p l) rest
          { st with
            entries := st.entries ++
              [(st.nextRef,
                { role := if isLocalOf p l then Role.user else Role.assistant,
                  text := s₀.text, interim := !s₀.final })],
            nextRef := st.nextRef + 1,
            segmentElements := setVal st.segmentElements s₀.id st.nextRef,
            lastUserSpeechEntry :=
              if isLocalOf p l then some st.nextRef else st.lastUserSpeechEntry }
          st.nextRef _ (fun s₂ hs₂ => hids s₂ (List.mem_cons_of_mem _ hs₂)) hmap₂ hent₂
        refine ⟨st.nextRef, e₂, hm₂, he₂, ?_⟩
        rcases hfin with ⟨s₂, hs₂, hsf⟩
        rcases List.mem_cons.mp hs₂ with h₂ | h₂
        · apply himp
          dsimp only
          rw [h₂] at hsf
          simp [hsf]
        · exact hfin₂ ⟨s₂, h₂, hsf⟩
  · intro st r e evs e₂ hent hint he₂
    obtain ⟨e₃, he₃, hi₃⟩ := interim_mono_rsteps evs st e hent hint
    rw [he₃] at he₂
    injection he₂ with h
    rw [← h]
    exact hi₃

/-- Witness for C3: a two-segment batch whose second segment is final,
and a monotonicity instance over a one-event trace. -/
theorem claim_C3_witness :
    (∃ r e₂,
      findVal (handleTranscription initialState
        [{ id := "s1", text := "a", final := false },
         { id := "s1", text := "ab", final := true }] none none).segmentElements "s1" =
        some r ∧
      findVal (handleTranscription initialState
        [{ id := "s1", text := "a", final := false },
         { id := "s1", text := "ab", final := true }] none none).entries r =
        some e₂ ∧
      e₂.interim = false) ∧
    (({ role := Role.assistant, text := "x", interim := false } : Entry).interim =
      false) :=
  ⟨claim_C3.1 initialState
      [{ id := "s1", text := "a", final := false },
       { id := "s1", text := "ab", final := true }] "s1" none none
      wf_initialState (by decide) (by decide)
      ⟨{ id := "s1", text := "ab", final := true }, by simp, rfl⟩,
   claim_C3.2
      { entries := [(0, { role := Role.assistant, text := "x", interim := false })],
        nextRef := 1, segmentElements := [("a", 0)], lastUserSpeechEntry := none }
      0 { role := Role.assistant, text := "x", interim := false } [.data none 0]
      { role := Role.assistant, text := "x", interim := false }
      (by decide) (by decide) (by decide)⟩

theorem keyInv_afterUpdate {k : String} {r : Nat} {e : Entry} {st : TranscriptState}
    (h : keyInv k r e st) {r₂ : Nat} (hr : r₂ ≠ r) (f : Entry → Entry) :
    keyInv k r e { st with entries := updateVal st.entries r₂ f } := by
  obtain ⟨h1, h2, h3, h4, h5⟩ := h
  refine ⟨h1, h2, h3, h4, ?_⟩
  show findVal (updateVal st.entries r₂ f) r = some e
  rw [findVal_updateVal, if_neg (fun hh => hr hh.symm)]
  exact h5

theorem keyInv_afterAppend {k : String} {r : Nat} {e : Entry} {st : TranscriptState}
    (h : keyInv k r e st) (id : String) (hid : id ≠ k) (x : Entry) (lu : Option Nat)
    (hl : lu = st.lastUserSpeechEntry ∨ lu = some st.nextRef) :
    keyInv k r e
      { entries := st.entries ++ [(st.nextRef, x)], nextRef := st.nextRef + 1,
        segmentElements := setVal st.segmentElements id st.nextRef,
        lastUserSpeechEntry := lu } := by
  obtain ⟨h1, h2, h3, h4, h5⟩ := h
  unfold keyInv
  dsimp only
  refine ⟨?_, ?_, ?_, by omega, findVal_append_of_some _ h5⟩
  · rw [findVal_setVal_ne _ _ _ _ (fun hh => hid hh.symm)]
    exact h1
  · intro k₂ hk₂
    by_cases hk₂id : k₂ = id
    · subst hk₂id
      rw [findVal_setVal_self]
      intro hcon
      injection hcon with hcon
      omega
    · rw [findVal_setVal_ne _ _ _ _ hk₂id]
      exact h2 k₂ hk₂
  · rcases hl with hl | hl <;> subst hl
    · exact h3
    · intro hcon
      injection hcon with hcon
      omega

theorem keyInv_completedPending {k : String} {r : Nat} {e : Entry} {st : TranscriptState}
    (h : keyInv k r e st) (id : String) (hid : id ≠ k) {r₂ : Nat}
    (hlu : st.lastUserSpeechEntry = some r₂) (f : Entry → Entry) :
    keyInv k r e
      { st with
        entries := updateVal st.entries r₂ f,
        segmentElements := setVal st.segmentElements id r₂,
        lastUserSpeechEntry := none } := by
  obtain ⟨h1, h2, h3, h4, h5⟩ := h
  have hr₂ : r₂ ≠ r := by
    intro hh
    exact h3 (by rw [hlu, hh])
  unfold keyInv
  dsimp only
  refine ⟨?_, ?_, by simp, h4, ?_⟩
  · rw [findVal_setVal_ne _ _ _ _ (fun hh => hid hh.symm)]
    exact h1
  · intro k₂ hk₂
    by_cases hk₂id : k₂ = id
    · subst hk₂id
      rw [findVal_setVal_self]
      intro hcon
      injection hcon with hcon
      exact hr₂ hcon
    · rw [findVal_setVal_ne _ _ _ _ hk₂id]
      exact h2 k₂ hk₂
  · rw [findVal_updateVal, if_neg (fun hh => hr₂ hh.symm)]
    exact h5

theorem keyInv_processSegment {k : String} {r : Nat} {e : Entry} {st : TranscriptState}
    (h : keyInv k r e st) (isLocal : Bool) (seg : Segment) (hseg : seg.id ≠ k) :
    keyInv k r e (processSegment isLocal st seg) := by
  cases hfind : findVal st.segmentElements seg.id with
  | some r₂ =>
    have hr₂ : r₂ ≠ r := by
      intro hh
      exact h.2.1 seg.id hseg (hh ▸ hfind)
    rw [processSegment_found isLocal hfind]
    exact keyInv_afterUpdate h hr₂ _
  | none =>
    rw [processSegment_new isLocal hfind]
    exact keyInv_afterAppend h seg.id hseg _ _
      (by cases isLocal with
        | false => exact Or.inl rfl
        | true => exact Or.inr rfl)

theorem keyInv_handleDataMessage {k : String} {r : Nat} {e : Entry}
    {st : TranscriptState} (h : keyInv k r e st) (msg : Option ParsedMsg) (now : Nat)
    (hav : avoidsKey k (.data msg now)) :
    keyInv k r e (handleDataMessage st msg now) := by
  cases msg with
  | none => exact h
  | some data =>
    obtain ⟨hitem, huser, hgrok⟩ := hav
    have hidu : (if data.item_id = "" then "user-" ++ natDecimal now
        else data.item_id) ≠ k := by
      by_cases h0 : data.item_id = ""
      · rw [if_pos h0]; exact huser
      · rw [if_neg h0]; exact hitem
    have hidg : (if data.item_id = "" then "grok-" ++ natDecimal now
        else data.item_id) ≠ k := by
      by_cases h0 : data.item_id = ""
      · rw [if_pos h0]; exact hgrok
      · rw [if_neg h0]; exact hitem
    unfold handleDataMessage
    dsimp only
    by_cases ht : data.type = ""
    · rw [if_pos ht]; exact h
    rw [if_neg ht]
    by_cases hc : data.type = "conversation.item.input_audio_transcription.completed"
    · rw [if_pos hc]
      by_cases htr : data.transcript = ""
      · rw [if_pos htr]; exact h
      rw [if_neg htr]
      cases hfind : findVal st.segmentElements
          (if data.item_id = "" then "user-" ++ natDecimal now else data.item_id) with
      | some r₂ =>
        have hr₂ : r₂ ≠ r := by
          intro hh
          exact h.2.1 _ hidu (hh ▸ hfind)
        exact keyInv_afterUpdate h hr₂ _
      | none =>
        cases hlu : st.lastUserSpeechEntry with
        | some r₂ => exact keyInv_completedPending h _ hidu hlu _
        | none => exact keyInv_afterAppend h _ hidu _ _ (Or.inl rfl)
    rw [if_neg hc]
    by_cases hd : data.type = "response.audio_transcript.delta"
    · rw [if_pos hd]
      by_cases hde : data.delta = ""
      · rw [if_pos hde]; exact h
      rw [if_neg hde]
      cases hfind : findVal st.segmentElements
          (if data.item_id = "" then "grok-" ++ natDecimal now else data.item_id) with
      | some r₂ =>
        have hr₂ : r₂ ≠ r := by
          intro hh
          exact h.2.1 _ hidg (hh ▸ hfind)
        exact keyInv_afterUpdate h hr₂ _
      | none => exact keyInv_afterAppend h _ hidg _ _ (Or.inl rfl)
    rw [if_neg hd]
    by_cases hdo : data.type = "response.audio_transcript.done"
    · rw [if_pos hdo]
      cases hfind : findVal st.segmentElements
          (if data.item_id = "" then "grok-" ++ natDecimal now else data.item_id) with
      | some r₂ =>
        have hr₂ : r₂ ≠ r := by
          intro hh
          exact h.2.1 _ hidg (hh ▸ hfind)
        exact keyInv_afterUpdate h hr₂ _
      | none =>
        by_cases htr : data.transcript = ""
        · rw [if_pos htr]; exact h
        · rw [if_neg htr]
          exact keyInv_afterAppend h _ hidg _ _ (Or.inl rfl)
    rw [if_neg hdo]
    exact h

theorem keyInv_rstep {k : String} {r : Nat} {e : Entry} {st : TranscriptState}
    (h : keyInv k r e st) (ev : REvent) (hav : avoidsKey k ev) :
    keyInv k r e (rstep st ev) := by
  cases ev with
  | transcription segs p l =>
    show keyInv k r e (handleTranscription st segs p l)
    unfold handleTranscription
    split
    · exact h
    · have hfold : ∀ (l₂ : List Segment) (st₂ : TranscriptState), keyInv k r e st₂ →
          (∀ s ∈ l₂, s.id ≠ k) →
          keyInv k r e (l₂.foldl (processSegment (isLocalOf p l)) st₂) := by
        intro l₂
        induction l₂ with
        | nil => exact fun st₂ hh _ => hh
        | cons s rest ih =>
          intro st₂ hh havs
          simp only [List.foldl_cons]
          exact ih _ (keyInv_processSegment hh _ s (havs s (by simp)))
            (fun s₂ hs₂ => havs s₂ (List.mem_cons_of_mem _ hs₂))
      exact hfold segs st h hav
  | data msg now => exact keyInv_handleDataMessage h msg now hav

theorem keyInv_rsteps {k : String} {r : Nat} {e : Entry} :
    ∀ (evs : List REvent) (st : TranscriptState), keyInv k r e st →
      (∀ ev ∈ evs, avoidsKey k ev) → keyInv k r e (rsteps st evs) := by
  intro evs
  induction evs with
  | nil => exact fun st h _ => h
  | cons ev rest ih =>
    intro st h hav
    simp only [rsteps, List.foldl_cons]
    exact ih _ (keyInv_rstep h ev (hav ev (by simp)))
      (fun ev₂ hev₂ => hav ev₂ (List.mem_cons_of_mem _ hev₂))

theorem keyInv_sendTextMessage {st : TranscriptState} (hwf : WFState st)
    {text : String} (h : jsTrim text ≠ "") (now : Nat) :
    keyInv ("text-user-" ++ natDecimal now) st.nextRef
      { role := Role.user, text := jsTrim text, interim := false }
      (sendTextMessage st true text now).1 := by
  obtain ⟨h1, h2, h3, h4, h5⟩ := hwf
  unfold sendTextMessage
  rw [if_neg h, if_neg (by decide : ¬((!true) = true))]
  dsimp only [appendTranscriptBubble]
  unfold keyInv
  try dsimp only
  refine ⟨findVal_setVal_self _ _ _, ?_, ?_, by omega, ?_⟩
  · intro k₂ hk₂
    rw [findVal_setVal_ne _ _ _ _ hk₂]
    intro hcon
    have := h2 k₂ st.nextRef hcon
    omega
  · intro hcon
    have := h3 st.nextRef hcon
    omega
  · rw [findVal_append_of_none _ (findVal_entries_fresh ⟨h1, h2, h3, h4, h5⟩)]
    simp [findVal]

/-- Counterexample to C8 as stated: the generated key is
`'text-user-' + Date.now()`, so two distinct typed messages sent in the
same millisecond receive the same key — after sending `"a"` and then
`"b"` at timestamp 0, the id table holds a single binding
`"text-user-0"` (now pointing at the second entry) for two entries, so
the keys of the two messages do not differ. -/
theorem claim_C8_counterexample :
    ((sendTextMessage (sendTextMessage initialState true "a" 0).1 true "b"
        0).1).segmentElements = [("text-user-0", 1)] ∧
    ((sendTextMessage (sendTextMessage initialState true "a" 0).1 true "b"
        0).1).entries.length = 2 := by
  exact ⟨rfl, rfl⟩

/-- Claim C8 as amended: a typed message (non-whitespace, sent while
connected) synthesizes a user entry locally and immediately, keyed
`'text-user-' + timestamp`; typed messages sent at distinct timestamps
receive distinct keys (same-timestamp messages collide); and the entry
is display-only in the sense that no later Source-A or Source-B event
that does not itself carry the entry's key — as a segment id, as an
`item_id`, or as the generated fallback id — ever looks it up or
modifies it. -/
theorem claim_C8 (st : TranscriptState) (text : String) (now n m : Nat)
    (evs : List REvent) (hwf : WFState st) (htext : jsTrim text ≠ "") (hnm : n ≠ m)
    (havoid : ∀ ev ∈ evs, avoidsKey ("text-user-" ++ natDecimal now) ev) :
    ("text-user-" ++ natDecimal n) ≠ ("text-user-" ++ natDecimal m) ∧
    (findVal (sendTextMessage st true text now).1.segmentElements
        ("text-user-" ++ natDecimal now) = some st.nextRef ∧
     findVal (sendTextMessage st true text now).1.entries st.nextRef =
       some { role := Role.user, text := jsTrim text, interim := false }) ∧
    (findVal (rsteps (sendTextMessage st true text now).1 evs).segmentElements
        ("text-user-" ++ natDecimal now) = some st.nextRef ∧
     findVal (rsteps (sendTextMessage st true text now).1 evs).entries st.nextRef =
       some { role := Role.user, text := jsTrim text, interim := false }) := by
  have hinv := keyInv_sendTextMessage hwf htext now
  have hinv₂ := keyInv_rsteps evs _ hinv havoid
  refine ⟨?_, ⟨hinv.1, hinv.2.2.2.2⟩, hinv₂.1, hinv₂.2.2.2.2⟩
  intro hcon
  exact hnm (natDecimal_inj (string_append_left_cancel hcon))

/-- Witness for C8: the message `" hi "` sent at timestamp 5, followed
by a transport segment and a protocol message that carry other ids. -/
theorem claim_C8_witness :
    ("text-user-" ++ natDecimal 0) ≠ ("text-user-" ++ natDecimal 1) ∧
    (findVal (sendTextMessage initialState true " hi " 5).1.segmentElements
        ("text-user-" ++ natDecimal 5) = some initialState.nextRef ∧
     findVal (sendTextMessage initialState true " hi " 5).1.entries
        initialState.nextRef =
       some { role := Role.user, text := jsTrim " hi ", interim := false }) ∧
    (findVal (rsteps (sendTextMessage initialState true " hi " 5).1
        [.transcription [{ id := "s1", text := "x", final := true }] none none,
         .data (some { type := "response.audio_transcript.delta", item_id := "g1",
                       transcript := "", delta := "y" }) 6]).segmentElements
        ("text-user-" ++ natDecimal 5) = some initialState.nextRef ∧
     findVal (rsteps (sendTextMessage initialState true " hi " 5).1
        [.transcription [{ id := "s1", text := "x", final := true }] none none,
         .data (some { type := "response.audio_transcript.delta", item_id := "g1",
                       transcript := "", delta := "y" }) 6]).entries
        initialState.nextRef =
       some { role := Role.user, text := jsTrim " hi ", interim := false }) :=
  claim_C8 initialState " hi " 5 0 1
    [.transcription [{ id := "s1", text := "x", final := true }] none none,
     .data (some { type := "response.audio_transcript.delta", item_id := "g1",
                   transcript := "", delta := "y" }) 6]
    wf_initialState (by decide) (by decide)
    (by
      intro ev hev
      rcases List.mem_cons.mp hev with hev | hev
      · subst hev
        intro s hs
        rcases List.mem_cons.mp hs with hs | hs
        · subst hs
          decide
        · simp at hs
      · simp at hev
        subst hev
        refine ⟨by decide, by decide, by decide⟩)

end VoiceApp
